import Mathlib

/-!
Shallow embedding of the GoSearch ingestion and search pipeline
(`src/backend`): the term extractor, the processed-term ledger, the page
resolver, the page store upsert, the Elasticsearch index synchronizer and
the query dispatcher's two backends.  Go strings become `String`, SQL rows
become Lean lists in storage order, timestamps become `Nat`, fallible
external calls are driven by explicit environment values, and functions
returning `error` return `Except`/pairs.
-/

/-- A scraped page / a row of the `pages` table: `Page` in the Go source.
`lastUpdated` (SQL `last_updated`) is modelled as a `Nat` timestamp. -/
structure Page where
  url : String
  title : String
  content : String
  language : String
  lastUpdated : Nat
deriving Repr, DecidableEq

/-- The effect of SQL `ON CONFLICT (url) DO UPDATE SET title = EXCLUDED.title,
content = EXCLUDED.content, language = EXCLUDED.language, last_updated = NOW()`
on one conflicting row: it keeps its `url` and place and takes the new
payload. -/
def updateWith (s r : Page) : Page :=
  { s with title := r.title, content := r.content,
           language := r.language, lastUpdated := r.lastUpdated }

/-- One SQL upsert on the `pages` table, keyed by `url`, as issued by
`savePageToDBWithLang`.  The table is a list of rows in storage order; on
conflict the existing row is updated in place, otherwise the row is
appended. -/
def upsertRow (store : List Page) (r : Page) : List Page :=
  if store.any (fun s => s.url == r.url) then
    store.map (fun s => if s.url == r.url then updateWith s r else s)
  else store ++ [r]

/-- `savePageToDBWithLang(page, lang)` from the Go source: rejects a page
with empty title, url or content with the error `invalid page data` before
touching the store; otherwise upserts `(url, title, content, lang, NOW())`.
The pair returns the Go error value and the store after the call. -/
def savePageToDBWithLang (page : Page) (lang : String) (now : Nat)
    (store : List Page) : Except String Unit × List Page :=
  if page.title == "" || page.url == "" || page.content == "" then
    (Except.error "invalid page data", store)
  else
    (Except.ok (),
      upsertRow store
        { url := page.url, title := page.title, content := page.content,
          language := lang, lastUpdated := now })

/-- The urls currently stored, in storage order. -/
def storeUrls (store : List Page) : List String := store.map (fun r => r.url)

/-- The rows of the store holding a given url, in storage order. -/
def urlRows (u : String) (store : List Page) : List Page :=
  store.filter (fun r => r.url == u)

/-- Result of one `scrapeWikipedia(url, lang)` call: `ok page` when the Go
function returns a nil error (the page's title may still be empty), `err`
when it returns an error (transport failure of `c.Visit` or HTTP 404).
The scraper's network behaviour is an environment the resolver is
parameterised over. -/
inductive FetchResult where
  | ok (page : Page)
  | err (msg : String)
deriving Repr, DecidableEq

/-- Model of `cases.Title(language.Und).String` as applied by
`buildWikipediaURL`: by the time it runs, spaces have been replaced by
underscores, so the argument is a single caser word and only its first
character is upper-cased while the rest is lower-cased (pinned by the
repository's `TestBuildWikipediaURL` cases, e.g. `hello_world ↦
Hello_world`, `Python_Programming ↦ Python_programming`).  ASCII model of
the Unicode caser. -/
def titleCaseUnd (s : String) : String :=
  match s.data with
  | [] => ""
  | c :: cs => String.mk (c.toUpper :: cs.map Char.toLower)

/-- `buildWikipediaURL(term, lang)`: replace spaces by underscores, title-case,
and build `https://<lang>.wikipedia.org/wiki/<slug>`.  The character-wise
space replacement is `strings.ReplaceAll(term, " ", "_")`. -/
def buildWikipediaURL (term lang : String) : String :=
  "https://" ++ lang ++ ".wikipedia.org/wiki/" ++
    titleCaseUnd (String.mk (term.data.map (fun c => if c = ' ' then '_' else c)))

/-- A language yields a valid hit for a term when the fetch of the built URL
succeeds and the fetched page's title is non-empty — the acceptance test of
the loop body in `tryScrapeInLanguages`. -/
def isHit (fetch : String → String → FetchResult) (term lang : String) : Bool :=
  match fetch (buildWikipediaURL term lang) lang with
  | FetchResult.ok page => page.title != ""
  | FetchResult.err _ => false

/-- `tryScrapeInLanguages(term, langs)`: try the languages in order; return
the first `(page, lang)` whose fetch succeeds with a non-empty title;
otherwise the `no valid Wikipedia page found for term '<term>'` error. -/
def tryScrapeInLanguages (fetch : String → String → FetchResult)
    (term : String) : List String → Except String (Page × String)
  | [] => Except.error ("no valid Wikipedia page found for term '" ++ term ++ "'")
  | lang :: rest =>
    match fetch (buildWikipediaURL term lang) lang with
    | FetchResult.ok page =>
      if page.title != "" then Except.ok (page, lang)
      else tryScrapeInLanguages fetch term rest
    | FetchResult.err _ => tryScrapeInLanguages fetch term rest

/-- The languages for which the loop of `tryScrapeInLanguages` issues a
fetch, in order: the same recursion, instrumented with its trace. -/
def tryScrapeAttempts (fetch : String → String → FetchResult)
    (term : String) : List String → List String
  | [] => []
  | lang :: rest =>
    match fetch (buildWikipediaURL term lang) lang with
    | FetchResult.ok page =>
      if page.title != "" then [lang]
      else lang :: tryScrapeAttempts fetch term rest
    | FetchResult.err _ => lang :: tryScrapeAttempts fetch term rest

/-- The double-quote character, written by code point. -/
def dq : Char := Char.ofNat 34

/-- The characters of the marker the extraction regexp `query="([^"]+)"`
scans for. -/
def queryMarker : List Char := "query=".data ++ [dq]

/-- ASCII whitespace code points: space, tab, newline, vertical tab, form
feed, carriage return. -/
def goIsSpaceNat (n : Nat) : Bool :=
  n == 32 || n == 9 || n == 10 || n == 11 || n == 12 || n == 13

/-- ASCII model of the whitespace class `strings.TrimSpace` trims. -/
def goIsSpace (c : Char) : Bool := goIsSpaceNat c.toNat

/-- `strings.TrimSpace` on a character list: drop whitespace from both
ends. -/
def goTrimSpace (s : List Char) : List Char :=
  ((s.dropWhile goIsSpace).reverse.dropWhile goIsSpace).reverse

/-- ASCII model of `strings.ToLower`: `Char.toLower` maps exactly the ASCII
letters A-Z. -/
def goToLower (s : List Char) : List Char := s.map Char.toLower

/-- The first (leftmost) capture of the RE2 regexp `query="([^"]+)"` on one
log line, as `re.FindStringSubmatch(line)[1]`: at the first position where
`query="` occurs followed by at least one non-quote character and a closing
quote, the maximal run of non-quote characters after the marker; `none`
when no position matches. -/
def extractCapture : List Char → Option (List Char)
  | [] => none
  | c :: cs =>
    if queryMarker.isPrefixOf (c :: cs) then
      let rest := (c :: cs).drop queryMarker.length
      let cap := rest.takeWhile (fun x => x != dq)
      if cap.isEmpty then extractCapture cs
      else if (rest.drop cap.length).head? == some dq then some cap
      else extractCapture cs
    else extractCapture cs

/-- `strings.ToLower(strings.TrimSpace(match[1]))`: the normalization the
Go loop applies to each captured term. -/
def normalizeTerm (cap : List Char) : String :=
  String.mk (goToLower (goTrimSpace cap))

/-- The body of the scanner loop of `extractSearchTerms`: on a capture, add
the normalized term to the accumulated set (`termsMap[term] = true`),
otherwise keep the set.  The Go map is modelled as a duplicate-free list in
first-appearance order (the map's iteration order is unspecified and the
spec treats the output as a set). -/
def extractStep (acc : List String) (line : String) : List String :=
  match extractCapture line.data with
  | some cap =>
    if acc.contains (normalizeTerm cap) then acc
    else acc ++ [normalizeTerm cap]
  | none => acc

/-- `extractSearchTerms` over the lines of the log file (the file read and
the scanner are modelled by the line list; an unreadable file yields `[]`
upstream). -/
def extractSearchTerms (lines : List String) : List String :=
  lines.foldl extractStep []

/-- `alreadyProcessed(term)`: SQL
`SELECT EXISTS (SELECT 1 FROM processed_searches WHERE search_term = $1)`.
The ledger table is the list of marked terms. -/
def alreadyProcessed (term : String) (ledger : List String) : Bool :=
  ledger.contains term

/-- `markAsProcessed(term)`: SQL `INSERT INTO processed_searches
(search_term) VALUES ($1) ON CONFLICT DO NOTHING` — a no-op when the term
is already recorded, and the Go function surfaces no error (it only
logs). -/
def markAsProcessed (term : String) (ledger : List String) : List String :=
  if ledger.contains term then ledger else ledger ++ [term]

/-- The mutable state `StartScraping` threads through its loop: the
processed-term ledger and the page store. -/
structure ScrapeState where
  ledger : List String
  store : List Page
deriving Repr, DecidableEq

/-- One iteration of the term loop in `StartScraping`: skip a processed
term; otherwise resolve it, on success upsert the page and only then mark
the term.  The second component counts the `tryScrapeInLanguages`
invocations the iteration performs (0 or 1). -/
def processTerm (fetch : String → String → FetchResult) (now : Nat)
    (st : ScrapeState) (term : String) : ScrapeState × Nat :=
  if alreadyProcessed term st.ledger then (st, 0)
  else
    match tryScrapeInLanguages fetch term ["da", "en"] with
    | Except.error _ => (st, 1)
    | Except.ok (page, lang) =>
      match savePageToDBWithLang page lang now st.store with
      | (Except.error _, store2) => ({ st with store := store2 }, 1)
      | (Except.ok _, store2) =>
        ({ ledger := markAsProcessed term st.ledger, store := store2 }, 1)

/-- The fold step of `StartScraping`: run one loop iteration from the
accumulated state, adding up resolver invocations. -/
def scrapeStep (fetch : String → String → FetchResult) (now : Nat)
    (acc : ScrapeState × Nat) (term : String) : ScrapeState × Nat :=
  let r := processTerm fetch now acc.1 term
  (r.1, acc.2 + r.2)

/-- `StartScraping(logPath)`: extract the terms and run the loop (an empty
term list returns immediately, which coincides with the empty fold).  The
`Nat` component is the total number of Page Resolver invocations. -/
def StartScraping (fetch : String → String → FetchResult) (now : Nat)
    (logLines : List String) (st : ScrapeState) : ScrapeState × Nat :=
  (extractSearchTerms logLines).foldl (scrapeStep fetch now) (st, 0)

/-- One document of the `pages` search index, with the fields of the
mapping `syncPagesToElasticsearch` creates: title, url, content, language,
last_updated. -/
structure EsDoc where
  title : String
  url : String
  content : String
  language : String
  last_updated : Nat
deriving Repr, DecidableEq

/-- The search index: `none` when the index is absent, otherwise the list
of its documents in insertion order (every submit uses an auto-generated
id, so a submit always adds a document). -/
abbrev EsIndex := Option (List EsDoc)

/-- The outcomes of the external calls one sync run makes: the structural
steps (existence check, delete, create, the DB query for the rows) and the
per-document index submits, by row position.  An error response
(`IsError`) and a transport error abort identically in the source, so one
flag per step suffices. -/
structure SyncEnv where
  existsCheckFails : Bool
  deleteFails : Bool
  createFails : Bool
  queryFails : Bool
  indexFails : Nat → Bool

/-- The document `syncPagesToElasticsearch` submits for a scanned row: the
query reads only `title, url, content`, and the document map hard-codes
`language: ""` and `last_updated: time.Now()` (the sync time `now`). -/
def mkEsDoc (now : Nat) (r : Page) : EsDoc :=
  { title := r.title, url := r.url, content := r.content,
    language := "", last_updated := now }

/-- The row loop of the sync: submit each row's document; a failed submit
is logged and skipped (the loop continues), a successful one appends the
document and bumps `count`.  `i` is the position of the first row of
`rows` in the full result set. -/
def syncIndexLoop (env : SyncEnv) (now : Nat) :
    List Page → Nat → List EsDoc × Nat
  | [], _ => ([], 0)
  | r :: rest, i =>
    if env.indexFails i then syncIndexLoop env now rest (i + 1)
    else (mkEsDoc now r :: (syncIndexLoop env now rest (i + 1)).1,
          (syncIndexLoop env now rest (i + 1)).2 + 1)

/-- The tail of `syncPagesToElasticsearch` after the conditional delete:
create the index fresh, query all rows, and run the row loop.  Returns the
Go error value, the resulting index state, and the number of documents
successfully submitted. -/
def syncAfterDelete (env : SyncEnv) (now : Nat) (store : List Page)
    (es : EsIndex) : Except String Unit × EsIndex × Nat :=
  if env.createFails then (Except.error "error creating index", es, 0)
  else if env.queryFails then
    (Except.error "error querying pages from DB", some [], 0)
  else
    let (docs, count) := syncIndexLoop env now store 0
    (Except.ok (), some docs, count)

/-- `syncPagesToElasticsearch()`: check whether the `pages` index exists
(status 200 exactly when it does); if it exists, delete it; create it
fresh with the five-field mapping; stream every row of the `pages` table
and submit its document with synchronous refresh.  Structural failures
return the error immediately; per-document failures are skipped. -/
def syncPagesToElasticsearch (env : SyncEnv) (now : Nat) (store : List Page)
    (es : EsIndex) : Except String Unit × EsIndex × Nat :=
  if env.existsCheckFails then
    (Except.error "error checking if index exists", es, 0)
  else
    match es with
    | some _ =>
      if env.deleteFails then (Except.error "error deleting index", es, 0)
      else syncAfterDelete env now store none
    | none => syncAfterDelete env now store none

/-- A sample stored page used by concrete instances. -/
def pgA : Page :=
  { url := "https://en.wikipedia.org/wiki/Golang", title := "Golang",
    content := "Go is a programming language", language := "en",
    lastUpdated := 5 }

/-- A second sample stored page. -/
def pgB : Page :=
  { url := "https://da.wikipedia.org/wiki/Python", title := "Python",
    content := "Python er et programmeringssprog", language := "da",
    lastUpdated := 6 }

/-- A stale pre-existing index document. -/
def docOld : EsDoc :=
  { title := "stale", url := "s", content := "s", language := "",
    last_updated := 1 }

/-- An environment where every external call of the sync succeeds. -/
def envAllOk : SyncEnv :=
  { existsCheckFails := false, deleteFails := false, createFails := false,
    queryFails := false, indexFails := fun _ => false }

/-- An environment where only the submit of the first document fails. -/
def envSkipFirst : SyncEnv :=
  { existsCheckFails := false, deleteFails := false, createFails := false,
    queryFails := false, indexFails := fun i => i == 0 }

/-- An environment where only the submit of the second document fails. -/
def envSkipSecond : SyncEnv :=
  { existsCheckFails := false, deleteFails := false, createFails := false,
    queryFails := false, indexFails := fun i => i == 1 }

/-- An environment where the index existence check fails. -/
def envExistsFail : SyncEnv :=
  { existsCheckFails := true, deleteFails := false, createFails := false,
    queryFails := false, indexFails := fun _ => false }

/-- SQL `LIKE` comparison of one pattern character with one subject
character: ASCII-case-insensitive, as SQLite's default `LIKE` behaves (the
fallback branch of `searchPagesInEs` runs against the `database/sql` layer
with `?` placeholders, which the repository wires to SQLite). -/
def likeCharEq (p c : Char) : Bool := Char.toLower p == Char.toLower c

/-- SQL `LIKE` matching over character lists: `%` matches any run, `_` any
single character, any other pattern character compares
ASCII-case-insensitively, and the pattern must cover the whole subject. -/
def likeMatch : List Char → List Char → Bool
  | [], s => s.isEmpty
  | p :: ps, s =>
    if p == '%' then s.tails.any (fun t => likeMatch ps t)
    else
      match s with
      | [] => false
      | c :: cs => (if p == '_' then true else likeCharEq p c) && likeMatch ps cs

/-- A row of the fallback query `SELECT title, url, content FROM pages
WHERE content LIKE ?` scanned into a `Page`: language and lastUpdated are
not selected and keep the zero values of the freshly declared struct. -/
def scanPage (r : Page) : Page :=
  { url := r.url, title := r.title, content := r.content, language := "",
    lastUpdated := 0 }

/-- The fallback branch of `searchPagesInEs`, taken when `esClient == nil`:
rows whose content matches the pattern `"%" + query + "%"`, in storage
order; a failing query returns its error. -/
def searchPagesInEsFallback (dbQueryFails : Bool) (query : String)
    (store : List Page) : Except String (List Page) :=
  if dbQueryFails then Except.error "db query error"
  else
    Except.ok ((store.filter (fun r =>
      likeMatch ("%" ++ query ++ "%").data r.content.data)).map scanPage)

/-- What the Elasticsearch search call can come back with in the engine
branch of `searchPagesInEs`: a transport error, a body that fails to
decode, or a decoded list of hits (possibly empty). -/
inductive EsSearchResponse where
  | transportError (msg : String)
  | decodeError (msg : String)
  | hits (pages : List Page)

/-- The engine branch of `searchPagesInEs`: the hit sources in
engine-assigned order; transport and decode failures are returned as
errors. -/
def searchPagesInEsEngine : EsSearchResponse → Except String (List Page)
  | EsSearchResponse.transportError msg => Except.error msg
  | EsSearchResponse.decodeError msg => Except.error msg
  | EsSearchResponse.hits ps => Except.ok ps

/-- Case-insensitive substring test: some suffix of `s` starts with `q`
(both already ASCII-lowered). -/
def containsSub (q s : List Char) : Bool :=
  s.tails.any (fun t => q.isPrefixOf t)

/-- The page of the spec's fallback example. -/
def pgTest : Page :=
  { url := "/test-url", title := "TestTitle", content := "TestContent",
    language := "en", lastUpdated := 3 }

theorem updateWith_eq_of_url (s r : Page) (h : s.url = r.url) :
    updateWith s r = r := by
  cases s; cases r; simp_all [updateWith]

theorem upsertRow_urls_of_mem (store : List Page) (r : Page)
    (h : store.any (fun s => s.url == r.url) = true) :
    storeUrls (upsertRow store r) = storeUrls store := by
  unfold upsertRow storeUrls
  rw [if_pos h, List.map_map]
  refine List.map_congr_left (fun s _ => ?_)
  by_cases hs : s.url == r.url
  · have : (updateWith s r).url = s.url := rfl
    simp [hs, Function.comp, this]
  · simp [hs, Function.comp]

theorem upsertRow_urls_of_not_mem (store : List Page) (r : Page)
    (h : store.any (fun s => s.url == r.url) = false) :
    storeUrls (upsertRow store r) = storeUrls store ++ [r.url] := by
  unfold upsertRow storeUrls
  rw [if_neg (by simp [h]), List.map_append]
  simp

theorem upsertRow_nodup (store : List Page) (r : Page)
    (h : (storeUrls store).Nodup) : (storeUrls (upsertRow store r)).Nodup := by
  by_cases hm : store.any (fun s => s.url == r.url) = true
  · rw [upsertRow_urls_of_mem store r hm]; exact h
  · rw [upsertRow_urls_of_not_mem store r (by simpa using hm)]
    rw [List.nodup_append]
    refine ⟨h, List.nodup_singleton _, ?_⟩
    intro u hu hu1
    rcases List.eq_of_mem_singleton hu1 with rfl
    rcases List.mem_map.1 hu with ⟨s, hs, hsu⟩
    exact hm (List.any_eq_true.2 ⟨s, hs, by simp [hsu]⟩)

theorem urlRows_upsertRow_self (store : List Page) (r : Page)
    (h : (storeUrls store).Nodup) : urlRows r.url (upsertRow store r) = [r] := by
  induction store with
  | nil => simp [upsertRow, urlRows]
  | cons a t ih =>
    have h' : a.url ∉ storeUrls t ∧ (storeUrls t).Nodup := by
      have : storeUrls (a :: t) = a.url :: storeUrls t := rfl
      rw [this, List.nodup_cons] at h
      exact h
    by_cases ha : (a.url == r.url) = true
    · have haeq : a.url = r.url := by simpa using ha
      have hmatch : ∀ s ∈ t, ¬ (s.url == r.url) = true := by
        intro s hs hsr
        have hsu : s.url = r.url := by simpa using hsr
        exact h'.1 (by
          have : s.url ∈ storeUrls t := List.mem_map_of_mem (fun x => x.url) hs
          rwa [hsu, ← haeq] at this)
      have hany : ((a :: t).any fun s => s.url == r.url) = true := by
        simp [List.any_cons, ha]
      have hmap : (t.map fun s => if s.url == r.url then updateWith s r else s) = t := by
        have : (t.map fun s => if s.url == r.url then updateWith s r else s)
            = t.map id := List.map_congr_left (fun s hs => by simp [hmatch s hs])
        rw [this, List.map_id]
      have hstep : upsertRow (a :: t) r = updateWith a r :: t := by
        unfold upsertRow
        rw [if_pos hany, List.map_cons, if_pos ha, hmap]
      rw [hstep, updateWith_eq_of_url a r haeq]
      unfold urlRows
      rw [List.filter_cons_of_pos (by simp)]
      rw [List.filter_eq_nil_iff.2 hmatch]
    · have hstep : upsertRow (a :: t) r = a :: upsertRow t r := by
        unfold upsertRow
        by_cases ht : (t.any fun s => s.url == r.url) = true
        · rw [if_pos (by simp [List.any_cons, ht]), if_pos ht, List.map_cons,
            if_neg ha]
        · have ht' : (t.any fun s => s.url == r.url) = false := by simpa using ht
          rw [if_neg (by simp [List.any_cons, ha, ht']), if_neg (by simp [ht'])]
          simp
      rw [hstep]
      unfold urlRows
      rw [List.filter_cons_of_neg (by simpa using ha)]
      exact ih h'.2

theorem savePage_nodup (p : Page) (lang : String) (now : Nat)
    (s : List Page) (h : (storeUrls s).Nodup) :
    (storeUrls (savePageToDBWithLang p lang now s).2).Nodup := by
  unfold savePageToDBWithLang
  by_cases hv : (p.title == "" || p.url == "" || p.content == "") = true
  · rw [if_pos hv]; exact h
  · rw [if_neg hv]; exact upsertRow_nodup s _ h

theorem foldl_savePage_nodup (ops : List (Page × String × Nat)) :
    ∀ s : List Page, (storeUrls s).Nodup →
      (storeUrls (ops.foldl
        (fun acc op => (savePageToDBWithLang op.1 op.2.1 op.2.2 acc).2) s)).Nodup := by
  induction ops with
  | nil => intro s h; exact h
  | cons op rest ih =>
    intro s h
    rw [List.foldl_cons]
    exact ih _ (savePage_nodup op.1 op.2.1 op.2.2 s h)

/-- C2: the Page Store holds at most one row per URL.  A valid upsert
preserves uniqueness of urls, and upserting two valid pages sharing a URL
but with different titles leaves exactly one row for that URL, holding the
later page's title, content, language and timestamp. -/
theorem pageStore_upsert_unique (store : List Page) (p1 p2 : Page)
    (lang1 lang2 : String) (t1 t2 : Nat)
    (hnd : (storeUrls store).Nodup)
    (hv1 : (p1.title == "" || p1.url == "" || p1.content == "") = false)
    (hv2 : (p2.title == "" || p2.url == "" || p2.content == "") = false)
    (hurl : p1.url = p2.url) :
    (∀ ops : List (Page × String × Nat),
      (storeUrls (ops.foldl
        (fun acc op => (savePageToDBWithLang op.1 op.2.1 op.2.2 acc).2)
        store)).Nodup) ∧
    (storeUrls (savePageToDBWithLang p1 lang1 t1 store).2).Nodup ∧
    urlRows p2.url (savePageToDBWithLang p2 lang2 t2
        (savePageToDBWithLang p1 lang1 t1 store).2).2 =
      [{ url := p2.url, title := p2.title, content := p2.content,
         language := lang2, lastUpdated := t2 }] := by
  refine ⟨fun ops => foldl_savePage_nodup ops store hnd, ?_⟩
  have h1 : savePageToDBWithLang p1 lang1 t1 store =
      (Except.ok (), upsertRow store
        { url := p1.url, title := p1.title, content := p1.content,
          language := lang1, lastUpdated := t1 }) := by
    unfold savePageToDBWithLang
    rw [if_neg (by simp [hv1])]
  have h2 : ∀ s : List Page, savePageToDBWithLang p2 lang2 t2 s =
      (Except.ok (), upsertRow s
        { url := p2.url, title := p2.title, content := p2.content,
          language := lang2, lastUpdated := t2 }) := by
    intro s
    unfold savePageToDBWithLang
    rw [if_neg (by simp [hv2])]
  have hnd1 : (storeUrls (savePageToDBWithLang p1 lang1 t1 store).2).Nodup := by
    rw [h1]
    exact upsertRow_nodup store _ hnd
  refine ⟨hnd1, ?_⟩
  have h3 := urlRows_upsertRow_self (savePageToDBWithLang p1 lang1 t1 store).2
    { url := p2.url, title := p2.title, content := p2.content,
      language := lang2, lastUpdated := t2 } hnd1
  rw [h2]
  exact h3

/-- Witness for C2 at a concrete input: two pages with the same url and
different titles, upserted into the empty store. -/
theorem pageStore_upsert_unique_witness :
    (∀ ops : List (Page × String × Nat),
      (storeUrls (ops.foldl
        (fun acc op => (savePageToDBWithLang op.1 op.2.1 op.2.2 acc).2)
        [])).Nodup) ∧
    (storeUrls (savePageToDBWithLang
        { url := "https://en.wikipedia.org/wiki/Golang", title := "Old",
          content := "c1", language := "ignored", lastUpdated := 9 }
        "da" 1 []).2).Nodup ∧
    urlRows "https://en.wikipedia.org/wiki/Golang"
      (savePageToDBWithLang
        { url := "https://en.wikipedia.org/wiki/Golang", title := "New",
          content := "c2", language := "ignored", lastUpdated := 9 }
        "en" 2
        (savePageToDBWithLang
          { url := "https://en.wikipedia.org/wiki/Golang", title := "Old",
            content := "c1", language := "ignored", lastUpdated := 9 }
          "da" 1 []).2).2 =
      [{ url := "https://en.wikipedia.org/wiki/Golang", title := "New",
         content := "c2", language := "en", lastUpdated := 2 }] :=
  pageStore_upsert_unique []
    { url := "https://en.wikipedia.org/wiki/Golang", title := "Old",
      content := "c1", language := "ignored", lastUpdated := 9 }
    { url := "https://en.wikipedia.org/wiki/Golang", title := "New",
      content := "c2", language := "ignored", lastUpdated := 9 }
    "da" "en" 1 2 (by simp [storeUrls]) (by decide) (by decide) rfl

/-- C3: `savePageToDBWithLang` on a page with an empty url, title or
content returns the `invalid page data` error and leaves the store exactly
as it was. -/
theorem savePage_invalid_rejected (page : Page) (lang : String) (now : Nat)
    (store : List Page)
    (h : page.url = "" ∨ page.title = "" ∨ page.content = "") :
    savePageToDBWithLang page lang now store =
      (Except.error "invalid page data", store) := by
  have hb : (page.title == "" || page.url == "" || page.content == "") = true := by
    rcases h with h | h | h <;> simp [h]
  unfold savePageToDBWithLang
  rw [if_pos hb]

/-- Witness for C3: upserting a page with empty content fails and leaves a
one-row store unchanged. -/
theorem savePage_invalid_rejected_witness :
    savePageToDBWithLang
      { url := "u", title := "t", content := "", language := "", lastUpdated := 0 }
      "en" 5
      [{ url := "v", title := "w", content := "x", language := "en", lastUpdated := 1 }] =
    (Except.error "invalid page data",
      [{ url := "v", title := "w", content := "x", language := "en", lastUpdated := 1 }]) :=
  savePage_invalid_rejected _ "en" 5 _ (Or.inr (Or.inr rfl))

/-- Sanity checks mirroring the repository's `TestBuildWikipediaURL` table. -/
theorem buildWikipediaURL_examples :
    buildWikipediaURL "golang" "en" = "https://en.wikipedia.org/wiki/Golang" ∧
    buildWikipediaURL "hello world" "da" = "https://da.wikipedia.org/wiki/Hello_world" ∧
    buildWikipediaURL "computer" "de" = "https://de.wikipedia.org/wiki/Computer" ∧
    buildWikipediaURL "artificial  intelligence" "en" =
      "https://en.wikipedia.org/wiki/Artificial__intelligence" ∧
    buildWikipediaURL "Python Programming" "en" =
      "https://en.wikipedia.org/wiki/Python_programming" := by
  decide

/-- C1: the resolver is sequential and short-circuiting.  If some language
in the list yields a hit (fetch succeeds and title non-empty), the result is
the fetched page paired with the first such language, and the fetch trace
stops right there (all earlier languages failed, no later language is
attempted).  If no language yields a hit, the result is the failure naming
the term, after attempting every language in order. -/
theorem tryScrapeInLanguages_first_hit (fetch : String → String → FetchResult)
    (term : String) (langs : List String) :
    match langs.find? (isHit fetch term) with
    | some l => ∃ p, fetch (buildWikipediaURL term l) l = FetchResult.ok p ∧
        (p.title != "") = true ∧
        tryScrapeInLanguages fetch term langs = Except.ok (p, l) ∧
        tryScrapeAttempts fetch term langs =
          langs.takeWhile (fun x => !(isHit fetch term x)) ++ [l]
    | none =>
        tryScrapeInLanguages fetch term langs =
          Except.error ("no valid Wikipedia page found for term '" ++ term ++ "'") ∧
        tryScrapeAttempts fetch term langs = langs := by
  induction langs with
  | nil => simp [tryScrapeInLanguages, tryScrapeAttempts]
  | cons lang rest ih =>
    by_cases h : isHit fetch term lang = true
    · rw [List.find?_cons_of_pos _ h]
      have hh := h
      unfold isHit at hh
      cases hf : fetch (buildWikipediaURL term lang) lang with
      | ok page =>
        rw [hf] at hh
        refine ⟨page, hf, hh, ?_, ?_⟩
        all_goals simp at hh
        · simp [tryScrapeInLanguages, hf, hh]
        · have ha : tryScrapeAttempts fetch term (lang :: rest) = [lang] := by
            simp [tryScrapeAttempts, hf, hh]
          rw [ha, List.takeWhile_cons_of_neg (by simp [h])]
          simp
      | err m => rw [hf] at hh; simp at hh
    · have h' : isHit fetch term lang = false := by simpa using h
      rw [List.find?_cons_of_neg _ h]
      have hh := h'
      unfold isHit at hh
      have hskip1 : tryScrapeInLanguages fetch term (lang :: rest) =
          tryScrapeInLanguages fetch term rest := by
        cases hf : fetch (buildWikipediaURL term lang) lang with
        | ok page =>
          rw [hf] at hh; simp at hh; simp [tryScrapeInLanguages, hf, hh]
        | err m => simp [tryScrapeInLanguages, hf]
      have hskip2 : tryScrapeAttempts fetch term (lang :: rest) =
          lang :: tryScrapeAttempts fetch term rest := by
        cases hf : fetch (buildWikipediaURL term lang) lang with
        | ok page =>
          rw [hf] at hh; simp at hh; simp [tryScrapeAttempts, hf, hh]
        | err m => simp [tryScrapeAttempts, hf]
      cases hfind : rest.find? (isHit fetch term) with
      | some l =>
        rw [hfind] at ih
        rcases ih with ⟨p, hp1, hp2, hp3, hp4⟩
        refine ⟨p, hp1, hp2, ?_, ?_⟩
        · rw [hskip1, hp3]
        · rw [hskip2, hp4, List.takeWhile_cons_of_pos (by simp [h'])]
          simp
      | none =>
        rw [hfind] at ih
        exact ⟨by rw [hskip1, ih.1], by rw [hskip2, ih.2]⟩

theorem head_dropWhile (p : Char → Bool) (l : List Char) :
    ∀ a ∈ (l.dropWhile p).head?, p a = false := by
  induction l with
  | nil => simp
  | cons x xs ih =>
    intro a ha
    rw [List.dropWhile_cons] at ha
    by_cases hx : p x = true
    · rw [if_pos hx] at ha; exact ih a ha
    · rw [if_neg hx] at ha
      simp at ha
      rcases ha with rfl
      simpa using hx

theorem dropWhile_eq_self_of_head (p : Char → Bool) (l : List Char)
    (h : ∀ a ∈ l.head?, p a = false) : l.dropWhile p = l := by
  cases l with
  | nil => rfl
  | cons x xs =>
    rw [List.dropWhile_cons, if_neg (by simp [h x (by simp)])]

theorem dropWhile_dropWhile (p : Char → Bool) (l : List Char) :
    (l.dropWhile p).dropWhile p = l.dropWhile p :=
  dropWhile_eq_self_of_head p _ (head_dropWhile p l)

theorem Char_toLower_eq_self (c : Char) (h : ¬(c.toNat ≥ 65 ∧ c.toNat ≤ 90)) :
    Char.toLower c = c := by
  unfold Char.toLower
  rw [if_neg h]

theorem Char_toLower_toNat_of_upper (c : Char)
    (h : c.toNat ≥ 65 ∧ c.toNat ≤ 90) :
    (Char.toLower c).toNat = c.toNat + 32 := by
  unfold Char.toLower
  rw [if_pos h]
  show (Char.ofNat (c.toNat + 32)).toNat = c.toNat + 32
  unfold Char.ofNat
  rw [dif_pos (Or.inl (by omega))]
  rfl

theorem Char_toLower_toLower (c : Char) :
    Char.toLower (Char.toLower c) = Char.toLower c := by
  by_cases h : c.toNat ≥ 65 ∧ c.toNat ≤ 90
  · have h32 := Char_toLower_toNat_of_upper c h
    apply Char_toLower_eq_self
    rw [h32]
    omega
  · rw [Char_toLower_eq_self c h, Char_toLower_eq_self c h]

theorem goIsSpaceNat_false (n : Nat) (h : 33 ≤ n) : goIsSpaceNat n = false := by
  unfold goIsSpaceNat
  simp only [Bool.or_eq_false_iff, beq_eq_false_iff_ne]
  omega

theorem goIsSpace_toLower (c : Char) :
    goIsSpace (Char.toLower c) = goIsSpace c := by
  by_cases h : c.toNat ≥ 65 ∧ c.toNat ≤ 90
  · have h32 := Char_toLower_toNat_of_upper c h
    show goIsSpaceNat (Char.toLower c).toNat = goIsSpaceNat c.toNat
    rw [h32, goIsSpaceNat_false _ (by omega), goIsSpaceNat_false _ (by omega)]
  · rw [Char_toLower_eq_self c h]

theorem goToLower_idem (s : List Char) :
    goToLower (goToLower s) = goToLower s := by
  unfold goToLower
  rw [List.map_map]
  exact List.map_congr_left (fun c _ => Char_toLower_toLower c)

theorem goIsSpace_comp_toLower : goIsSpace ∘ Char.toLower = goIsSpace :=
  funext goIsSpace_toLower

theorem dropWhile_goToLower (l : List Char) :
    (goToLower l).dropWhile goIsSpace = goToLower (l.dropWhile goIsSpace) := by
  unfold goToLower
  rw [List.dropWhile_map, goIsSpace_comp_toLower]

theorem goTrimSpace_goTrimSpace_head (cap : List Char) :
    (goTrimSpace cap).dropWhile goIsSpace = goTrimSpace cap := by
  apply dropWhile_eq_self_of_head
  intro a ha
  unfold goTrimSpace at ha
  set A := cap.dropWhile goIsSpace with hA
  set B := A.reverse.dropWhile goIsSpace with hB
  have hsuf : B <:+ A.reverse := List.dropWhile_suffix goIsSpace
  have hpre : B.reverse <+: A := by
    have := List.reverse_prefix.2 hsuf
    rwa [List.reverse_reverse] at this
  rcases hpre with ⟨t, ht⟩
  have hhead : A.head? = some a := by
    rw [← ht, List.head?_append]
    cases hc : B.reverse.head? with
    | some b =>
      have hba : b = a := by
        rw [hc] at ha
        exact Option.some.inj (Option.mem_def.1 ha)
      show some b = some a
      rw [hba]
    | none => rw [hc] at ha; simp at ha
  exact head_dropWhile goIsSpace cap a (by rw [hA] at hhead; simp [hhead])

theorem goTrimSpace_goTrimSpace_rev (cap : List Char) :
    (goTrimSpace cap).reverse.dropWhile goIsSpace = (goTrimSpace cap).reverse := by
  unfold goTrimSpace
  rw [List.reverse_reverse]
  exact dropWhile_dropWhile goIsSpace _

theorem normalizeTerm_lower (cap : List Char) :
    goToLower (normalizeTerm cap).data = (normalizeTerm cap).data := by
  show goToLower (goToLower (goTrimSpace cap)) = goToLower (goTrimSpace cap)
  exact goToLower_idem _

theorem normalizeTerm_trimmed_head (cap : List Char) :
    (normalizeTerm cap).data.dropWhile goIsSpace = (normalizeTerm cap).data := by
  show (goToLower (goTrimSpace cap)).dropWhile goIsSpace = goToLower (goTrimSpace cap)
  rw [dropWhile_goToLower, goTrimSpace_goTrimSpace_head]

theorem normalizeTerm_trimmed_rev (cap : List Char) :
    (normalizeTerm cap).data.reverse.dropWhile goIsSpace =
      (normalizeTerm cap).data.reverse := by
  show (goToLower (goTrimSpace cap)).reverse.dropWhile goIsSpace =
    (goToLower (goTrimSpace cap)).reverse
  unfold goToLower
  rw [← List.map_reverse, List.dropWhile_map, goIsSpace_comp_toLower,
    goTrimSpace_goTrimSpace_rev]

theorem extractStep_mem (acc : List String) (line : String) :
    ∀ t ∈ extractStep acc line, t ∈ acc ∨ ∃ cap, t = normalizeTerm cap := by
  intro t ht
  unfold extractStep at ht
  cases hc : extractCapture line.data with
  | none => rw [hc] at ht; exact Or.inl ht
  | some cap =>
    simp only [hc] at ht
    by_cases hmem : acc.contains (normalizeTerm cap)
    · rw [if_pos hmem] at ht; exact Or.inl ht
    · rw [if_neg hmem] at ht
      rcases List.mem_append.1 ht with h | h
      · exact Or.inl h
      · exact Or.inr ⟨cap, List.eq_of_mem_singleton h⟩

theorem extractStep_nodup (acc : List String) (line : String)
    (h : acc.Nodup) : (extractStep acc line).Nodup := by
  unfold extractStep
  cases hc : extractCapture line.data with
  | none => exact h
  | some cap =>
    show (if acc.contains (normalizeTerm cap) then acc
      else acc ++ [normalizeTerm cap]).Nodup
    by_cases hmem : acc.contains (normalizeTerm cap)
    · rw [if_pos hmem]; exact h
    · rw [if_neg hmem]
      rw [List.nodup_append]
      refine ⟨h, List.nodup_singleton _, ?_⟩
      intro x hx hx1
      rcases List.eq_of_mem_singleton hx1 with rfl
      exact hmem (by simpa using List.elem_iff.2 hx)

theorem extractFold_mem (lines : List String) :
    ∀ acc, ∀ t ∈ lines.foldl extractStep acc,
      t ∈ acc ∨ ∃ cap, t = normalizeTerm cap := by
  induction lines with
  | nil => intro acc t ht; exact Or.inl ht
  | cons line rest ih =>
    intro acc t ht
    rw [List.foldl_cons] at ht
    rcases ih _ t ht with h | h
    · exact extractStep_mem acc line t h
    · exact Or.inr h

theorem extractFold_nodup (lines : List String) :
    ∀ acc, acc.Nodup → (lines.foldl extractStep acc).Nodup := by
  induction lines with
  | nil => intro acc h; exact h
  | cons line rest ih =>
    intro acc h
    rw [List.foldl_cons]
    exact ih _ (extractStep_nodup acc line h)

/-- C9: every term `extractSearchTerms` returns is ASCII-lowercase and has
no leading or trailing whitespace, no term appears twice, and log
occurrences differing only in casing or surrounding whitespace collapse to
one entry — the repository's `{Golang, GOLANG, golang}` example evaluates
to exactly `["golang"]`. -/
theorem extractSearchTerms_normalized (lines : List String) :
    (∀ t ∈ extractSearchTerms lines,
      goToLower t.data = t.data ∧
      t.data.dropWhile goIsSpace = t.data ∧
      t.data.reverse.dropWhile goIsSpace = t.data.reverse) ∧
    (extractSearchTerms lines).Nodup ∧
    extractSearchTerms
      ["2025-12-25 query=\"Golang\" from=127.0.0.1",
       "2025-12-25 query=\"GOLANG\" from=127.0.0.1",
       "2025-12-25 query=\"golang\" from=127.0.0.1"] = ["golang"] := by
  refine ⟨?_, extractFold_nodup lines [] List.nodup_nil, ?_⟩
  · intro t ht
    rcases extractFold_mem lines [] t ht with h | ⟨cap, rfl⟩
    · simp at h
    · exact ⟨normalizeTerm_lower cap, normalizeTerm_trimmed_head cap,
        normalizeTerm_trimmed_rev cap⟩
  · decide

theorem processTerm_skip (fetch : String → String → FetchResult) (now : Nat)
    (s : ScrapeState) (t : String) (ht : t ∈ s.ledger) :
    processTerm fetch now s t = (s, 0) := by
  unfold processTerm alreadyProcessed
  rw [if_pos (by simpa using List.elem_iff.2 ht)]

theorem scrapeStep_skip (fetch : String → String → FetchResult) (now : Nat)
    (s : ScrapeState) (c : Nat) (t : String) (ht : t ∈ s.ledger) :
    scrapeStep fetch now (s, c) t = (s, c) := by
  unfold scrapeStep
  simp only [processTerm_skip fetch now s t ht]
  rfl

/-- C10: for a term already recorded in the ledger, the loop body of
`StartScraping` performs no resolver invocation, no store write and adds no
ledger row; marking an already-marked term is a no-op (and the Go function
surfaces no error in any case); and a run over a log whose extracted terms
are all already recorded leaves the whole state unchanged with zero
resolver invocations. -/
theorem ledger_idempotent_frame (fetch : String → String → FetchResult)
    (now : Nat) (st : ScrapeState) (term : String) (ledger : List String)
    (logLines : List String)
    (hterm : term ∈ st.ledger) (hmark : term ∈ ledger)
    (hall : ∀ t ∈ extractSearchTerms logLines, t ∈ st.ledger) :
    processTerm fetch now st term = (st, 0) ∧
    markAsProcessed term ledger = ledger ∧
    StartScraping fetch now logLines st = (st, 0) := by
  refine ⟨processTerm_skip fetch now st term hterm, ?_, ?_⟩
  · unfold markAsProcessed
    rw [if_pos (by simpa using List.elem_iff.2 hmark)]
  · unfold StartScraping
    have key : ∀ terms : List String, (∀ t ∈ terms, t ∈ st.ledger) →
        ∀ c : Nat, terms.foldl (scrapeStep fetch now) (st, c) = (st, c) := by
      intro terms
      induction terms with
      | nil => intro _ c; rfl
      | cons t rest ih =>
        intro hmem c
        calc List.foldl (scrapeStep fetch now) (st, c) (t :: rest)
            = List.foldl (scrapeStep fetch now)
                (scrapeStep fetch now (st, c) t) rest := List.foldl_cons rest (st, c)
          _ = List.foldl (scrapeStep fetch now) (st, c) rest := by
              rw [scrapeStep_skip fetch now st c t (hmem t (by simp))]
          _ = (st, c) := ih (fun x hx => hmem x (by simp [hx])) c
    exact key _ hall 0

/-- Witness for C10 at a concrete input: a run over a log naming only the
already-recorded term `golang`. -/
theorem ledger_idempotent_frame_witness :
    processTerm (fun _ _ => FetchResult.err "down") 3
      { ledger := ["golang"], store := [] } "golang" =
      ({ ledger := ["golang"], store := [] }, 0) ∧
    markAsProcessed "golang" ["golang"] = ["golang"] ∧
    StartScraping (fun _ _ => FetchResult.err "down") 3
      ["query=\"golang\""] { ledger := ["golang"], store := [] } =
      ({ ledger := ["golang"], store := [] }, 0) :=
  ledger_idempotent_frame (fun _ _ => FetchResult.err "down") 3
    { ledger := ["golang"], store := [] } "golang" ["golang"]
    ["query=\"golang\""] (by decide) (by decide) (by decide)

theorem syncIndexLoop_all_ok (env : SyncEnv) (now : Nat)
    (hidx : ∀ i, env.indexFails i = false) :
    ∀ (rows : List Page) (i : Nat),
      syncIndexLoop env now rows i = (rows.map (mkEsDoc now), rows.length) := by
  intro rows
  induction rows with
  | nil => intro i; rfl
  | cons r rest ih =>
    intro i
    unfold syncIndexLoop
    rw [hidx i, ih (i + 1)]
    simp

theorem syncIndexLoop_count (env : SyncEnv) (now : Nat) :
    ∀ (rows : List Page) (i : Nat),
      (syncIndexLoop env now rows i).2 =
        ((List.range rows.length).filter
          (fun k => !env.indexFails (i + k))).length := by
  intro rows
  induction rows with
  | nil => intro i; rfl
  | cons r rest ih =>
    intro i
    have hshift : ((List.range rest.length).filter
          (fun k => !env.indexFails (i + 1 + k))).length =
        (((List.range rest.length).map Nat.succ).filter
          (fun k => !env.indexFails (i + k))).length := by
      rw [List.filter_map, List.length_map]
      congr 1
      refine (List.filter_congr (fun k _ => ?_)).symm
      show (!env.indexFails (i + (k + 1))) = !env.indexFails (i + 1 + k)
      rw [show i + (k + 1) = i + 1 + k by omega]
    unfold syncIndexLoop
    rw [List.length_cons, List.range_succ_eq_map, List.filter_cons]
    by_cases hf : env.indexFails i = true
    · rw [if_pos hf]
      rw [show (!env.indexFails (i + 0)) = false by simp [hf]]
      rw [if_neg (by simp)]
      rw [ih (i + 1), hshift]
    · have hf' : env.indexFails i = false := by simpa using hf
      rw [if_neg (by simp [hf'])]
      rw [show (!env.indexFails (i + 0)) = true by simp [hf']]
      rw [if_pos rfl, List.length_cons]
      show (syncIndexLoop env now rest (i + 1)).2 + 1 = _
      rw [ih (i + 1), hshift]

theorem syncIndexLoop_count_zero (env : SyncEnv) (now : Nat) (rows : List Page) :
    (syncIndexLoop env now rows 0).2 =
      ((List.range rows.length).filter (fun k => !env.indexFails k)).length := by
  rw [syncIndexLoop_count]
  congr 1
  exact List.filter_congr (fun k _ => by rw [Nat.zero_add])

theorem syncIndexLoop_docs (env : SyncEnv) (now : Nat) :
    ∀ (rows : List Page) (i : Nat),
      (syncIndexLoop env now rows i).1 =
        ((rows.enumFrom i).filter (fun p => !env.indexFails p.1)).map
          (fun p => mkEsDoc now p.2) := by
  intro rows
  induction rows with
  | nil => intro i; rfl
  | cons r rest ih =>
    intro i
    unfold syncIndexLoop
    have henum : (r :: rest).enumFrom i = (i, r) :: rest.enumFrom (i + 1) := rfl
    rw [henum, List.filter_cons]
    by_cases hf : env.indexFails i = true
    · rw [if_pos hf]
      rw [show (!(fun p : Nat × Page => env.indexFails p.1) (i, r)) = false by simp [hf]]
      rw [if_neg (by simp)]
      exact ih (i + 1)
    · have hf' : env.indexFails i = false := by simpa using hf
      rw [if_neg (by simp [hf'])]
      rw [show (!(fun p : Nat × Page => env.indexFails p.1) (i, r)) = true by simp [hf']]
      rw [if_pos rfl, List.map_cons]
      show mkEsDoc now r :: (syncIndexLoop env now rest (i + 1)).1 = _
      rw [ih (i + 1)]

theorem sync_nominal (env : SyncEnv) (now : Nat) (store : List Page)
    (es : EsIndex) (hex : env.existsCheckFails = false)
    (hdel : es = none ∨ env.deleteFails = false)
    (hcr : env.createFails = false) (hq : env.queryFails = false) :
    syncPagesToElasticsearch env now store es =
      (Except.ok (), some (syncIndexLoop env now store 0).1,
        (syncIndexLoop env now store 0).2) := by
  have htail : syncAfterDelete env now store none =
      (Except.ok (), some (syncIndexLoop env now store 0).1,
        (syncIndexLoop env now store 0).2) := by
    unfold syncAfterDelete
    rw [if_neg (by simp [hcr]), if_neg (by simp [hq])]
  unfold syncPagesToElasticsearch
  rw [if_neg (by simp [hex])]
  cases es with
  | none => exact htail
  | some docs =>
    have hd : env.deleteFails = false := by
      rcases hdel with h | h
      · exact absurd h (by simp)
      · exact h
    show (if env.deleteFails then (Except.error "error deleting index",
        some docs, 0) else syncAfterDelete env now store none) = _
    rw [if_neg (by simp [hd])]
    exact htail

/-- C5: a failure of the existence-check, of the delete of a present index,
or of the create step makes `syncPagesToElasticsearch` return an error with
zero documents loaded; when those structural steps and the DB query
succeed, the run returns success even if individual document submits fail:
it skips them, loads exactly the documents of the non-failing rows, and
counts them. -/
theorem sync_error_handling (env : SyncEnv) (now : Nat) (store : List Page)
    (es : EsIndex) :
    ((env.existsCheckFails || (es.isSome && env.deleteFails)
        || env.createFails) = true →
      (∃ msg, (syncPagesToElasticsearch env now store es).1 = Except.error msg) ∧
      (syncPagesToElasticsearch env now store es).2.2 = 0) ∧
    ((env.existsCheckFails || (es.isSome && env.deleteFails)
        || env.createFails || env.queryFails) = false →
      (syncPagesToElasticsearch env now store es).1 = Except.ok () ∧
      (syncPagesToElasticsearch env now store es).2.1 =
        some ((store.enum.filter (fun p => !env.indexFails p.1)).map
          (fun p => mkEsDoc now p.2)) ∧
      (syncPagesToElasticsearch env now store es).2.2 =
        ((List.range store.length).filter (fun k => !env.indexFails k)).length) := by
  constructor
  · intro h
    by_cases hex : env.existsCheckFails = true
    · refine ⟨⟨"error checking if index exists", ?_⟩, ?_⟩ <;>
        · unfold syncPagesToElasticsearch
          rw [if_pos hex]
    · have hex' : env.existsCheckFails = false := by simpa using hex
      cases es with
      | some docs =>
        by_cases hdel : env.deleteFails = true
        · have hstep : syncPagesToElasticsearch env now store (some docs) =
              (Except.error "error deleting index", some docs, 0) := by
            unfold syncPagesToElasticsearch
            rw [if_neg (by simp [hex'])]
            show (if env.deleteFails then _ else _) = _
            rw [if_pos hdel]
          rw [hstep]
          exact ⟨⟨_, rfl⟩, rfl⟩
        · have hdel' : env.deleteFails = false := by simpa using hdel
          have hcr : env.createFails = true := by
            simp [hex', hdel'] at h
            exact h
          have hstep : syncPagesToElasticsearch env now store (some docs) =
              (Except.error "error creating index", none, 0) := by
            unfold syncPagesToElasticsearch syncAfterDelete
            rw [if_neg (by simp [hex'])]
            show (if env.deleteFails then _ else _) = _
            rw [if_neg (by simp [hdel']), if_pos hcr]
          rw [hstep]
          exact ⟨⟨_, rfl⟩, rfl⟩
      | none =>
        have hcr : env.createFails = true := by
          simp [hex'] at h
          exact h
        have hstep : syncPagesToElasticsearch env now store none =
            (Except.error "error creating index", none, 0) := by
          unfold syncPagesToElasticsearch syncAfterDelete
          rw [if_neg (by simp [hex']), if_pos hcr]
        rw [hstep]
        exact ⟨⟨_, rfl⟩, rfl⟩
  · intro h
    simp only [Bool.or_eq_false_iff] at h
    obtain ⟨⟨⟨hex, hdel⟩, hcr⟩, hq⟩ := h
    have hdel' : es = none ∨ env.deleteFails = false := by
      cases es with
      | none => exact Or.inl rfl
      | some docs =>
        refine Or.inr ?_
        simpa using hdel
    rw [sync_nominal env now store es hex hdel' hcr hq]
    refine ⟨rfl, ?_, ?_⟩
    · show some (syncIndexLoop env now store 0).1 = _
      rw [syncIndexLoop_docs env now store 0]
      rfl
    · exact syncIndexLoop_count_zero env now store

/-- Witness for C5 at concrete inputs: a failing existence check aborts
with zero documents; a failing submit of the second of two documents still
returns success, loading the first document and counting one. -/
theorem sync_error_handling_witness :
    ((∃ msg, (syncPagesToElasticsearch envExistsFail 7 [pgA] none).1 =
        Except.error msg) ∧
      (syncPagesToElasticsearch envExistsFail 7 [pgA] none).2.2 = 0) ∧
    ((syncPagesToElasticsearch envSkipSecond 7 [pgA, pgB] (some [docOld])).1 =
        Except.ok () ∧
      (syncPagesToElasticsearch envSkipSecond 7 [pgA, pgB] (some [docOld])).2.1 =
        some ((([pgA, pgB] : List Page).enum.filter
          (fun p => !envSkipSecond.indexFails p.1)).map
            (fun p => mkEsDoc 7 p.2)) ∧
      (syncPagesToElasticsearch envSkipSecond 7 [pgA, pgB] (some [docOld])).2.2 =
        ((List.range ([pgA, pgB] : List Page).length).filter
          (fun k => !envSkipSecond.indexFails k)).length) :=
  ⟨(sync_error_handling envExistsFail 7 [pgA] none).1 rfl,
   (sync_error_handling envSkipSecond 7 [pgA, pgB] (some [docOld])).2 rfl⟩

/-- C4 as stated is falsified by a per-document submit failure: with one
stored page whose submit fails, the run completes successfully, yet the
rebuilt index holds zero documents, not one — also starting from a
pre-existing index. -/
theorem sync_count_counterexample :
    syncPagesToElasticsearch envSkipFirst 7 [pgA] (some [docOld]) =
      (Except.ok (), some [], 0) ∧
    ([pgA] : List Page).length = 1 :=
  ⟨rfl, rfl⟩

/-- C4 amended: when the structural steps and every per-document submit
succeed, a run leaves the index containing exactly as many documents as
the store has pages, regardless of the index's initial state (absent,
empty, or pre-existing). -/
theorem sync_full_count (env : SyncEnv) (now : Nat) (store : List Page)
    (es : EsIndex) (hex : env.existsCheckFails = false)
    (hdel : env.deleteFails = false) (hcr : env.createFails = false)
    (hq : env.queryFails = false) (hidx : ∀ i, env.indexFails i = false) :
    (syncPagesToElasticsearch env now store es).1 = Except.ok () ∧
    ∃ docs, (syncPagesToElasticsearch env now store es).2.1 = some docs ∧
      docs.length = store.length := by
  rw [sync_nominal env now store es hex (Or.inr hdel) hcr hq,
    syncIndexLoop_all_ok env now hidx store 0]
  exact ⟨rfl, store.map (mkEsDoc now), rfl, List.length_map store (mkEsDoc now)⟩

/-- Witness for the amended C4: two pages synced over a pre-existing
index of one stale document. -/
theorem sync_full_count_witness :
    (syncPagesToElasticsearch envAllOk 7 [pgA, pgB] (some [docOld])).1 =
      Except.ok () ∧
    ∃ docs,
      (syncPagesToElasticsearch envAllOk 7 [pgA, pgB] (some [docOld])).2.1 =
        some docs ∧
      docs.length = ([pgA, pgB] : List Page).length :=
  sync_full_count envAllOk 7 [pgA, pgB] (some [docOld]) rfl rfl rfl rfl
    (fun _ => rfl)

/-- C6 as stated is falsified by the submitted document's language and
last_updated fields: the sync reads only title, url and content from the
store and hard-codes `language: ""` and `last_updated` to the sync time,
so for a stored page with language `en` and timestamp 5, the submitted
document carries `""` and the sync time 7 instead. -/
theorem sync_doc_fields_counterexample :
    syncPagesToElasticsearch envAllOk 7 [pgA] none =
      (Except.ok (),
        some [{ title := "Golang", url := "https://en.wikipedia.org/wiki/Golang",
                content := "Go is a programming language", language := "",
                last_updated := 7 }], 1) ∧
    pgA.language = "en" ∧ pgA.lastUpdated = 5 ∧
    ("" : String) ≠ "en" ∧ (7 : Nat) ≠ 5 :=
  ⟨rfl, rfl, rfl, by decide, by decide⟩

/-- C6 amended: for every successfully processed row, the submitted
document's title, url and content equal the stored page's; its language
field is the empty string and its last_updated field is the sync time, not
the stored values. -/
theorem sync_doc_denormalization (env : SyncEnv) (now : Nat)
    (store : List Page) (es : EsIndex) (hex : env.existsCheckFails = false)
    (hdel : env.deleteFails = false) (hcr : env.createFails = false)
    (hq : env.queryFails = false) (hidx : ∀ i, env.indexFails i = false) :
    (syncPagesToElasticsearch env now store es).2.1 =
      some (store.map (mkEsDoc now)) ∧
    ∀ r : Page, (mkEsDoc now r).title = r.title ∧
      (mkEsDoc now r).url = r.url ∧ (mkEsDoc now r).content = r.content ∧
      (mkEsDoc now r).language = "" ∧ (mkEsDoc now r).last_updated = now := by
  rw [sync_nominal env now store es hex (Or.inr hdel) hcr hq,
    syncIndexLoop_all_ok env now hidx store 0]
  exact ⟨rfl, fun r => ⟨rfl, rfl, rfl, rfl, rfl⟩⟩

/-- Witness for the amended C6 at a concrete input. -/
theorem sync_doc_denormalization_witness :
    (syncPagesToElasticsearch envAllOk 7 [pgA] none).2.1 =
      some (([pgA] : List Page).map (mkEsDoc 7)) ∧
    ∀ r : Page, (mkEsDoc 7 r).title = r.title ∧
      (mkEsDoc 7 r).url = r.url ∧ (mkEsDoc 7 r).content = r.content ∧
      (mkEsDoc 7 r).language = "" ∧ (mkEsDoc 7 r).last_updated = 7 :=
  sync_doc_denormalization envAllOk 7 [pgA] none rfl rfl rfl rfl (fun _ => rfl)

theorem likeMatch_wildcard_free_prefix (q : List Char)
    (hq : ∀ c ∈ q, c ≠ '%' ∧ c ≠ '_') :
    ∀ s : List Char, likeMatch (q ++ ['%']) s =
      (q.map Char.toLower).isPrefixOf (s.map Char.toLower) := by
  induction q with
  | nil =>
    intro s
    have h1 : likeMatch ([] ++ ['%']) s = true := by
      show s.tails.any (fun t => likeMatch [] t) = true
      refine List.any_eq_true.2 ⟨[], ?_, rfl⟩
      exact (List.mem_tails [] s).2 List.nil_suffix
    rw [h1]
    cases s <;> rfl
  | cons a as ih =>
    intro s
    have ha := hq a (by simp)
    have hps : (a == '%') = false := by simp [ha.1]
    have hus : (a == '_') = false := by simp [ha.2]
    cases s with
    | nil =>
      show likeMatch (a :: (as ++ ['%'])) [] = false
      unfold likeMatch
      rw [if_neg (by simp [hps])]
    | cons c cs =>
      show likeMatch (a :: (as ++ ['%'])) (c :: cs) = _
      unfold likeMatch
      rw [if_neg (by simp [hps])]
      show ((if a == '_' then true else likeCharEq a c) &&
        likeMatch (as ++ ['%']) cs) = _
      rw [hus, if_neg (by simp), ih (fun x hx => hq x (by simp [hx])) cs]
      rfl

theorem List_tails_map (f : Char → Char) (l : List Char) :
    (l.map f).tails = l.tails.map (List.map f) := by
  induction l with
  | nil => rfl
  | cons a t ih =>
    show ((a :: t).map f).tails = _
    rw [List.map_cons, List.tails_cons, ih, List.tails_cons, List.map_cons,
      List.map_cons]

theorem likeMatch_pattern (q : List Char)
    (hq : ∀ c ∈ q, c ≠ '%' ∧ c ≠ '_') (s : List Char) :
    likeMatch ('%' :: (q ++ ['%'])) s =
      containsSub (q.map Char.toLower) (s.map Char.toLower) := by
  have h1 : likeMatch ('%' :: (q ++ ['%'])) s
      = s.tails.any (fun t => likeMatch (q ++ ['%']) t) := rfl
  have h2 : (fun t => likeMatch (q ++ ['%']) t)
      = (fun t => (q.map Char.toLower).isPrefixOf (t.map Char.toLower)) :=
    funext (fun t => likeMatch_wildcard_free_prefix q hq t)
  rw [h1, h2]
  unfold containsSub
  rw [List_tails_map Char.toLower s, List.any_map]
  rfl

/-- C7 as stated is falsified by the case-sensitivity direction: the
fallback search for `TESTCONTENT` returns the page whose content is
`TestContent`, although `TESTCONTENT` is not a case-sensitive substring of
that content — SQL `LIKE` compares ASCII letters case-insensitively. -/
theorem searchFallback_counterexample :
    searchPagesInEsFallback false "TESTCONTENT" [pgTest] =
      Except.ok [⟨"/test-url", "TestTitle", "TestContent", "", 0⟩] ∧
    ¬ ("TESTCONTENT".data <:+: "TestContent".data) :=
  ⟨rfl, by decide⟩

/-- C7 amended: when the search engine is unavailable, for a query without
the SQL wildcard characters `%` and `_`, the fallback returns exactly the
pages whose content contains the query as an ASCII-case-insensitive
substring, in storage order with no re-ranking (returned rows carry only
the selected title, url and content columns). -/
theorem searchFallback_substring (query : String) (store : List Page)
    (hq : ∀ c ∈ query.data, c ≠ '%' ∧ c ≠ '_') :
    searchPagesInEsFallback false query store =
      Except.ok ((store.filter (fun r =>
        containsSub (query.data.map Char.toLower)
          (r.content.data.map Char.toLower))).map scanPage) := by
  unfold searchPagesInEsFallback
  rw [if_neg (by simp)]
  have hdata : ("%" ++ query ++ "%").data = '%' :: (query.data ++ ['%']) := by
    rw [String.data_append, String.data_append]
    rfl
  have hfilter : (store.filter (fun r =>
      likeMatch ("%" ++ query ++ "%").data r.content.data)) =
      (store.filter (fun r =>
        containsSub (query.data.map Char.toLower)
          (r.content.data.map Char.toLower))) := by
    refine List.filter_congr (fun r _ => ?_)
    rw [hdata]
    exact likeMatch_pattern query.data hq r.content.data
  rw [hfilter]

/-- Witness for the amended C7: the spec's own example, searching
`TestContent` against a store holding a page whose content includes it. -/
theorem searchFallback_substring_witness :
    searchPagesInEsFallback false "TestContent" [pgTest] =
      Except.ok ((([pgTest] : List Page).filter (fun r =>
        containsSub ("TestContent".data.map Char.toLower)
          (r.content.data.map Char.toLower))).map scanPage) :=
  searchFallback_substring "TestContent" [pgTest] (by decide)

/-- C8: on zero matches both backends return `ok []` — an empty list and a
nil error, never an absent result — and an error arises only from a
failing fallback DB query or from an engine transport/decode failure. -/
theorem search_zero_matches_empty (query : String) (store : List Page)
    (resp : EsSearchResponse) (dbFails : Bool) :
    ((store.filter (fun r =>
        likeMatch ("%" ++ query ++ "%").data r.content.data)) = [] →
      searchPagesInEsFallback false query store = Except.ok []) ∧
    searchPagesInEsEngine (EsSearchResponse.hits []) = Except.ok [] ∧
    (∀ msg, searchPagesInEsFallback dbFails query store = Except.error msg →
      dbFails = true) ∧
    (∀ msg, searchPagesInEsEngine resp = Except.error msg →
      resp = EsSearchResponse.transportError msg ∨
        resp = EsSearchResponse.decodeError msg) := by
  refine ⟨?_, rfl, ?_, ?_⟩
  · intro h
    unfold searchPagesInEsFallback
    rw [if_neg (by simp), h]
    rfl
  · intro msg hmsg
    by_cases hdb : dbFails = true
    · exact hdb
    · have hdb' : dbFails = false := by simpa using hdb
      rw [hdb'] at hmsg
      unfold searchPagesInEsFallback at hmsg
      simp at hmsg
  · intro msg hmsg
    cases resp with
    | transportError m =>
      have hm : m = msg := by
        simpa [searchPagesInEsEngine] using hmsg
      exact Or.inl (by rw [hm])
    | decodeError m =>
      have hm : m = msg := by
        simpa [searchPagesInEsEngine] using hmsg
      exact Or.inr (by rw [hm])
    | hits ps => simp [searchPagesInEsEngine] at hmsg
